import Mathlib

/-!
# Verification of the segment / sub-page / quiz navigation core

A shallow embedding, in Lean 4, of the navigation, pagination, audio-transport
and quiz logic of the mobile reading application, together with theorems
settling the behavioural claims about it.

The embedding follows the source code:

* the segment orchestrator's `handleInternalNavigate`
  (`CourseViewer` and the book page variant);
* the content paginator `createPageParts` and the alignment matcher
  `findAudioTimingForText` (`ReadingView`, two snapshot variants that differ
  only in the `SENTENCES_PER_PAGE` constant, 3 vs 1);
* the audio player's `loadSound` effect and `statusUpdateCallback`
  (`audio-player.tsx`);
* the quiz view's `handleAnswerSelect`, `handleNavButtonClick`, timer effects
  and the deterministic `shuffleArray` (`QuizView`).

JavaScript strings are modelled as `List Char`; JS numbers holding integer
indices as `Nat` (with `Int` where JS subtraction can go negative); time
values (seconds / milliseconds, floating point in the source) as `ℚ` where
they are only carried around, and as `Int` where they are compared — none of
the verified properties depend on rounding of times.  Stateful React
components are modelled by explicit state records and pure step functions;
`setTimeout`/`clearTimeout` by an explicit list of pending timers whose
closures capture the state they saw when scheduled.
-/

/-! ## Segment orchestrator: `handleInternalNavigate`

Source: `CourseViewer.handleInternalNavigate` and the identical logic in the
book page component.  State consists of `subPageIndex`, `totalSubPages` and
the loaded quiz list (only its length matters here).  The handler either
updates `subPageIndex` (`setSubPageIndex`) or forwards navigation to the
segment level above (`onNavigate('up'/'down')` resp. `handleNavigation`).
-/

structure NavState where
  subPageIndex : Nat
  totalSubPages : Nat
  quizCount : Nat
deriving DecidableEq, Repr

inductive NavDir where
  | up
  | down
deriving DecidableEq, Repr

inductive NavAction where
  | setIndex (i : Nat)
  | navigateUp
  | navigateDown
deriving DecidableEq, Repr

/-- `const isShowingQuiz = subPageIndex >= totalSubPages && quizzes.length > 0;` -/
def navIsShowingQuiz (s : NavState) : Bool :=
  decide (s.totalSubPages ≤ s.subPageIndex) && decide (0 < s.quizCount)

/-- `const currentQuizIndex = isShowingQuiz ? subPageIndex - totalSubPages : 0;` -/
def navCurrentQuizIndex (s : NavState) : Nat :=
  if navIsShowingQuiz s then s.subPageIndex - s.totalSubPages else 0

/-- The body of `handleInternalNavigate(direction)`.  Branches follow the
source verbatim; Nat subtraction here agrees with the JS expressions on every
branch in which it is used (checked in the theorems below). -/
def handleInternalNavigate (dir : NavDir) (s : NavState) : NavAction :=
  match dir with
  | .up =>
    if navIsShowingQuiz s then
      if navCurrentQuizIndex s < s.quizCount - 1 then
        NavAction.setIndex (s.subPageIndex + 1)
      else
        NavAction.navigateUp
    else
      if s.subPageIndex < s.totalSubPages - 1 then
        NavAction.setIndex (s.subPageIndex + 1)
      else if 0 < s.quizCount then
        NavAction.setIndex s.totalSubPages
      else
        NavAction.navigateUp
  | .down =>
    if navIsShowingQuiz s then
      if 0 < navCurrentQuizIndex s then
        NavAction.setIndex (s.subPageIndex - 1)
      else
        NavAction.setIndex (s.totalSubPages - 1)
    else
      if 0 < s.subPageIndex then
        NavAction.setIndex (s.subPageIndex - 1)
      else
        NavAction.navigateDown

/-- C1: from the last SubPage of a text segment with zero quiz questions, a
forward navigation requests the next segment (the upward navigate callback)
and never switches into quiz mode (never sets the linear index to
`totalSubPages`). -/
theorem forward_at_last_subpage_no_quizzes (s : NavState)
    (hq : s.quizCount = 0) (hlast : s.subPageIndex = s.totalSubPages - 1) :
    handleInternalNavigate NavDir.up s = NavAction.navigateUp ∧
      handleInternalNavigate NavDir.up s ≠ NavAction.setIndex s.totalSubPages := by
  have hshow : navIsShowingQuiz s = false := by
    simp [navIsShowingQuiz, hq]
  constructor
  · simp only [handleInternalNavigate, hshow, Bool.false_eq_true, if_false, hq]
    have : ¬ s.subPageIndex < s.totalSubPages - 1 := by omega
    simp [this]
  · intro h
    simp only [handleInternalNavigate, hshow, Bool.false_eq_true, if_false, hq] at h
    have : ¬ s.subPageIndex < s.totalSubPages - 1 := by omega
    simp [this] at h

theorem forward_at_last_subpage_no_quizzes_witness :
    (NavState.mk 1 2 0).quizCount = 0 ∧
      (NavState.mk 1 2 0).subPageIndex = (NavState.mk 1 2 0).totalSubPages - 1 ∧
      (handleInternalNavigate NavDir.up (NavState.mk 1 2 0) = NavAction.navigateUp ∧
        handleInternalNavigate NavDir.up (NavState.mk 1 2 0) ≠
          NavAction.setIndex (NavState.mk 1 2 0).totalSubPages) :=
  ⟨by decide, by decide,
    forward_at_last_subpage_no_quizzes (NavState.mk 1 2 0) (by decide) (by decide)⟩

/-- C10: every intra-segment navigation step that stays inside the segment
(i.e. results in `setSubPageIndex`) changes the linear index by exactly one:
`+1` going forward (content advance, content-to-quiz switch, quiz advance) and
`-1` going backward (quiz retreat, quiz-to-content switch, content retreat).
`totalSubPages ≥ 1` is the orchestrator's invariant (it is initialised to 1
and only ever set to the length of a non-empty SubPage list). -/
theorem intra_segment_step_changes_index_by_one (s : NavState)
    (ht : 1 ≤ s.totalSubPages) (i : Nat) :
    (handleInternalNavigate NavDir.up s = NavAction.setIndex i →
        i = s.subPageIndex + 1) ∧
      (handleInternalNavigate NavDir.down s = NavAction.setIndex i →
        i + 1 = s.subPageIndex) := by
  have hquiz := navIsShowingQuiz s
  constructor
  · intro h
    simp only [handleInternalNavigate] at h
    by_cases hs : navIsShowingQuiz s = true
    · simp only [hs, if_true] at h
      split at h
      · cases h
        rfl
      · exact absurd h (by simp)
    · have hs' : navIsShowingQuiz s = false := by
        revert hs; cases navIsShowingQuiz s <;> simp
      simp only [hs', Bool.false_eq_true, if_false] at h
      have hns : ¬ (s.totalSubPages ≤ s.subPageIndex ∧ 0 < s.quizCount) := by
        intro ⟨h1, h2⟩
        simp [navIsShowingQuiz, h1, h2] at hs'
      split at h
      · cases h
        rfl
      · split at h
        · cases h
          omega
        · exact absurd h (by simp)
  · intro h
    simp only [handleInternalNavigate] at h
    by_cases hs : navIsShowingQuiz s = true
    · have hsq : s.totalSubPages ≤ s.subPageIndex ∧ 0 < s.quizCount := by
        simpa [navIsShowingQuiz] using hs
      simp only [hs, if_true, navCurrentQuizIndex] at h
      split at h
      · cases h
        omega
      · cases h
        simp only [hs, if_true] at *
        omega
    · have hs' : navIsShowingQuiz s = false := by
        revert hs; cases navIsShowingQuiz s <;> simp
      simp only [hs', Bool.false_eq_true, if_false] at h
      split at h
      · cases h
        omega
      · exact absurd h (by simp)

theorem intra_segment_step_changes_index_by_one_witness :
    1 ≤ (NavState.mk 0 2 0).totalSubPages ∧
      ((handleInternalNavigate NavDir.up (NavState.mk 0 2 0) = NavAction.setIndex 1 →
          1 = (NavState.mk 0 2 0).subPageIndex + 1) ∧
        (handleInternalNavigate NavDir.down (NavState.mk 0 2 0) = NavAction.setIndex 1 →
          1 + 1 = (NavState.mk 0 2 0).subPageIndex)) :=
  ⟨by decide, intra_segment_step_changes_index_by_one (NavState.mk 0 2 0) (by decide) 1⟩

/-! ## Quiz view: answer submission, auto-advance timers, navigation

Source: `QuizView`.  React state (`currentQuizIndex`, `selectedAnswer`,
`hasSubmitted`, `isCorrect`, `autoCloseTimer`) is modelled as a record, and
`setTimeout` is modelled as a list of pending timers.  A timer records its id,
which delay scheduled it (the 800ms correct-answer delay or the 10s
incorrect-answer delay) and the `currentQuizIndex` value its closure
captured.  The effect with dependency `[currentQuizIndex]` (reset selection,
clear `autoCloseTimer`) is folded into every transition that changes the
question index, which is how React runs it here. -/

structure QuizQ where
  id : Int
  question_text : List Char
  correct_answer : List Char
  incorrect_answers : List (List Char)
  explanation : List Char
deriving DecidableEq, Repr

inductive TimerKind where
  | tCorrect
  | tIncorrect
deriving DecidableEq, Repr

structure PendingTimer where
  tid : Nat
  kind : TimerKind
  capturedIndex : Nat
deriving DecidableEq, Repr

structure QuizState where
  currentQuizIndex : Nat
  selectedAnswer : Option (List Char)
  hasSubmitted : Bool
  isCorrect : Bool
  autoCloseTimer : Option Nat
  pending : List PendingTimer
  nextTid : Nat
  reports : List (List Char × Bool × Int)
  completions : Nat
  navDownSignals : Nat
deriving DecidableEq, Repr

def initQuizState : QuizState :=
  { currentQuizIndex := 0, selectedAnswer := none, hasSubmitted := false,
    isCorrect := false, autoCloseTimer := none, pending := [], nextTid := 0,
    reports := [], completions := 0, navDownSignals := 0 }

/-- The `useEffect(..., [currentQuizIndex])` body: reset the per-question
state and `clearTimeout(autoCloseTimer)`. -/
def questionChangeEffect (s : QuizState) : QuizState :=
  { s with
    selectedAnswer := none
    hasSubmitted := false
    isCorrect := false
    pending := match s.autoCloseTimer with
      | some t => s.pending.filter (fun pt => pt.tid != t)
      | none => s.pending
    autoCloseTimer := none }

inductive QuizEvent where
  | select (answer : List Char)
  | navNext
  | navPrev
  | fire (tid : Nat)
deriving DecidableEq, Repr

/-- One step of the quiz view.

* `select` is `handleAnswerSelect`: no-op when `hasSubmitted`; otherwise it
  records the answer, grades by exact string equality against
  `correct_answer`, calls `onSubmit(answer, correct, quiz.id)` once, and
  schedules the auto-advance timer — only the incorrect-answer timer is
  stored in `autoCloseTimer` (the correct-answer `setTimeout` result is
  discarded in the source).
* `navNext` / `navPrev` are `handleNavButtonClick('up' / 'down')`.
* `fire t` delivers pending timer `t` (a no-op if it was cancelled); the
  timer body compares its captured index against `quizzes.length - 1`
  (`Int` arithmetic, as in JS) and either calls `onComplete` or advances
  `currentQuizIndex` by one. -/
def quizStep (qs : List QuizQ) (e : QuizEvent) (s : QuizState) : QuizState :=
  match e with
  | .select a =>
    if s.hasSubmitted then s
    else
      match qs.get? s.currentQuizIndex with
      | none => s
      | some q =>
        let correct := a == q.correct_answer
        let timer : PendingTimer :=
          { tid := s.nextTid
            kind := if correct then TimerKind.tCorrect else TimerKind.tIncorrect
            capturedIndex := s.currentQuizIndex }
        { s with
          selectedAnswer := some a
          isCorrect := correct
          hasSubmitted := true
          reports := s.reports ++ [(a, correct, q.id)]
          pending := s.pending ++ [timer]
          nextTid := s.nextTid + 1
          autoCloseTimer := if correct then s.autoCloseTimer else some s.nextTid }
  | .navNext =>
    if s.currentQuizIndex < qs.length - 1 then
      questionChangeEffect { s with currentQuizIndex := s.currentQuizIndex + 1 }
    else
      { s with completions := s.completions + 1 }
  | .navPrev =>
    if 0 < s.currentQuizIndex then
      questionChangeEffect { s with currentQuizIndex := s.currentQuizIndex - 1 }
    else
      { s with navDownSignals := s.navDownSignals + 1 }
  | .fire t =>
    match s.pending.find? (fun pt => pt.tid == t) with
    | none => s
    | some pt =>
      let s1 := { s with pending := s.pending.filter (fun x => x.tid != t) }
      if (pt.capturedIndex : Int) = (qs.length : Int) - 1 then
        { s1 with completions := s1.completions + 1 }
      else
        questionChangeEffect { s1 with currentQuizIndex := s1.currentQuizIndex + 1 }

def runQuiz (qs : List QuizQ) (evs : List QuizEvent) : QuizState :=
  List.foldl (fun s e => quizStep qs e s) initQuizState evs

/-- Invariant of the quiz view's timer bookkeeping: every pending
incorrect-answer (long-delay) timer is the one tracked in `autoCloseTimer`,
and before a submission `autoCloseTimer` is empty. -/
def QuizInv (s : QuizState) : Prop :=
  (∀ pt ∈ s.pending, pt.kind = TimerKind.tIncorrect → s.autoCloseTimer = some pt.tid) ∧
    (s.hasSubmitted = false → s.autoCloseTimer = none)

theorem quizInv_init : QuizInv initQuizState := by
  constructor
  · intro pt hpt
    simp [initQuizState] at hpt
  · intro
    rfl

theorem quizInv_effect (s : QuizState) (h : QuizInv s) :
    QuizInv (questionChangeEffect s) := by
  obtain ⟨h1, _⟩ := h
  constructor
  · intro pt hpt hk
    exfalso
    simp only [questionChangeEffect] at hpt
    cases hact : s.autoCloseTimer with
    | none =>
      rw [hact] at hpt
      exact absurd (h1 pt hpt hk) (by simp [hact])
    | some t =>
      rw [hact] at hpt
      have hmem := List.mem_of_mem_filter hpt
      have := h1 pt hmem hk
      rw [hact] at this
      have htid : pt.tid = t := by
        injection this.symm
      have := List.of_mem_filter hpt
      simp [htid] at this
  · intro
    rfl

theorem quizInv_step (qs : List QuizQ) (e : QuizEvent) (s : QuizState)
    (h : QuizInv s) : QuizInv (quizStep qs e s) := by
  obtain ⟨h1, h2⟩ := h
  cases e with
  | select a =>
    simp only [quizStep]
    by_cases hsub : s.hasSubmitted
    · simp only [hsub, if_true]
      exact ⟨h1, h2⟩
    · have hsub' : s.hasSubmitted = false := by
        revert hsub; cases s.hasSubmitted <;> simp
      simp only [hsub', Bool.false_eq_true, if_false]
      cases hq : qs.get? s.currentQuizIndex with
      | none => exact ⟨h1, h2⟩
      | some q =>
        have hact : s.autoCloseTimer = none := h2 hsub'
        by_cases hc : (a == q.correct_answer) = true
        · constructor
          · intro pt hpt hk
            simp only [hc, if_true, List.mem_append, List.mem_singleton] at hpt
            cases hpt with
            | inl hin => exact absurd (h1 pt hin hk) (by simp [hact])
            | inr hnew =>
              exfalso
              rw [hnew] at hk
              simp [hc] at hk
          · intro hfalse
            simp at hfalse
        · have hc' : (a == q.correct_answer) = false := by
            revert hc; cases (a == q.correct_answer) <;> simp
          constructor
          · intro pt hpt hk
            simp only [hc', Bool.false_eq_true, if_false, List.mem_append,
              List.mem_singleton] at hpt ⊢
            cases hpt with
            | inl hin => exact absurd (h1 pt hin hk) (by simp [hact])
            | inr hnew => rw [hnew]
          · intro hfalse
            simp at hfalse
  | navNext =>
    simp only [quizStep]
    split
    · exact quizInv_effect _ ⟨h1, h2⟩
    · exact ⟨h1, h2⟩
  | navPrev =>
    simp only [quizStep]
    split
    · exact quizInv_effect _ ⟨h1, h2⟩
    · exact ⟨h1, h2⟩
  | fire t =>
    simp only [quizStep]
    cases hf : s.pending.find? (fun pt => pt.tid == t) with
    | none =>
      simp only [hf]
      exact ⟨h1, h2⟩
    | some pt =>
      simp only [hf]
      split
      · constructor
        · intro pt' hpt' hk
          exact h1 pt' (List.mem_of_mem_filter hpt') hk
        · exact h2
      · exact quizInv_effect _
          ⟨fun pt' hpt' hk => h1 pt' (List.mem_of_mem_filter hpt') hk, h2⟩

theorem quizInv_run (qs : List QuizQ) (evs : List QuizEvent) :
    QuizInv (runQuiz qs evs) := by
  rw [runQuiz]
  induction evs using List.reverseRecOn with
  | nil => exact quizInv_init
  | append_singleton evs e ih =>
    rw [List.foldl_append, List.foldl_cons, List.foldl_nil]
    exact quizInv_step qs e _ ih

theorem questionChangeEffect_autoCloseTimer (s : QuizState) :
    (questionChangeEffect s).autoCloseTimer = none := rfl

theorem questionChangeEffect_all_correct (s : QuizState) (h : QuizInv s) :
    ((questionChangeEffect s).pending.all
      (fun pt => pt.kind == TimerKind.tCorrect)) = true := by
  rw [List.all_eq_true]
  intro pt hpt
  cases hk : pt.kind with
  | tCorrect => simp
  | tIncorrect =>
    have hcontr := (quizInv_effect s h).1 pt hpt hk
    rw [questionChangeEffect_autoCloseTimer] at hcontr
    cases hcontr

/-- C6 (amended): when a manual navigation (`handleNavButtonClick`) moves to
a different question, the pending long-delay timer — the incorrect-answer
auto-advance stored in `autoCloseTimer` — is cancelled, so afterwards only
short-delay correct-answer timers can still be pending.  (The claim as
stated, that *both* kinds of timer are cancelled, is false: the 800ms
correct-answer `setTimeout` handle is discarded by the source and cannot be
cancelled — see the counterexample.) -/
theorem nav_change_cancels_long_delay_timer (qs : List QuizQ)
    (evs : List QuizEvent) (e : QuizEvent)
    (he : e = QuizEvent.navNext ∨ e = QuizEvent.navPrev)
    (hchg : (quizStep qs e (runQuiz qs evs)).currentQuizIndex ≠
      (runQuiz qs evs).currentQuizIndex) :
    ((quizStep qs e (runQuiz qs evs)).pending.all
        (fun pt => pt.kind == TimerKind.tCorrect)) = true ∧
      (quizStep qs e (runQuiz qs evs)).autoCloseTimer = none := by
  have hinv := quizInv_run qs evs
  cases he with
  | inl h =>
    subst h
    by_cases hc : (runQuiz qs evs).currentQuizIndex < qs.length - 1
    · simp only [quizStep, hc, if_true]
      exact ⟨questionChangeEffect_all_correct _ hinv,
        questionChangeEffect_autoCloseTimer _⟩
    · exact absurd (by simp [quizStep, hc]) hchg
  | inr h =>
    subst h
    by_cases hc : 0 < (runQuiz qs evs).currentQuizIndex
    · simp only [quizStep, hc, if_true]
      exact ⟨questionChangeEffect_all_correct _ hinv,
        questionChangeEffect_autoCloseTimer _⟩
    · exact absurd (by simp [quizStep, hc]) hchg

/-- A three-question quiz bank used to exercise the quiz-view model. -/
def quizzesW : List QuizQ :=
  [ { id := 1, question_text := [], correct_answer := ['a'],
      incorrect_answers := [['b']], explanation := [] },
    { id := 2, question_text := [], correct_answer := ['a'],
      incorrect_answers := [['b']], explanation := [] },
    { id := 3, question_text := [], correct_answer := ['a'],
      incorrect_answers := [['b']], explanation := [] } ]

theorem nav_change_cancels_long_delay_timer_witness :
    (QuizEvent.navNext = QuizEvent.navNext ∨ QuizEvent.navNext = QuizEvent.navPrev) ∧
      ((quizStep quizzesW QuizEvent.navNext
            (runQuiz quizzesW [QuizEvent.select ['x']])).currentQuizIndex ≠
        (runQuiz quizzesW [QuizEvent.select ['x']]).currentQuizIndex) ∧
      (((quizStep quizzesW QuizEvent.navNext
            (runQuiz quizzesW [QuizEvent.select ['x']])).pending.all
          (fun pt => pt.kind == TimerKind.tCorrect)) = true ∧
        (quizStep quizzesW QuizEvent.navNext
            (runQuiz quizzesW [QuizEvent.select ['x']])).autoCloseTimer = none) :=
  ⟨Or.inl rfl, by decide,
    nav_change_cancels_long_delay_timer quizzesW [QuizEvent.select ['x']]
      QuizEvent.navNext (Or.inl rfl) (by decide)⟩

/-- C6 counterexample: answering question 0 correctly schedules the 800ms
auto-advance timer (id 0).  Navigating forward to question 1 does **not**
cancel it — it is still pending — and when it later fires it advances the
view to question 2, i.e. a scheduled auto-advance fires against a question
(index 1) the user had already navigated to on their own.  This refutes the
claim that every pending auto-advance timer is cancelled on navigation. -/
theorem correct_timer_survives_navigation_cex :
    (runQuiz quizzesW [QuizEvent.select ['a'], QuizEvent.navNext]).pending =
        [{ tid := 0, kind := TimerKind.tCorrect, capturedIndex := 0 }] ∧
      (runQuiz quizzesW [QuizEvent.select ['a'], QuizEvent.navNext]).currentQuizIndex = 1 ∧
      (runQuiz quizzesW
          [QuizEvent.select ['a'], QuizEvent.navNext, QuizEvent.fire 0]).currentQuizIndex = 2 := by
  decide

/-- C8: `handleAnswerSelect` is idempotent per question instance — a second
submit on an already-submitted question is a no-op (the state, including the
list of `onSubmit` reports, is unchanged) — correctness is exact string
equality with `correct_answer`, and `(answer, isCorrect, questionId)` is
reported exactly once per submission. -/
theorem submit_idempotent_reports_once (qs : List QuizQ) (s : QuizState)
    (q : QuizQ) (a : List Char)
    (hq : qs.get? s.currentQuizIndex = some q) :
    (s.hasSubmitted = true → quizStep qs (QuizEvent.select a) s = s) ∧
      (s.hasSubmitted = false →
        ((quizStep qs (QuizEvent.select a) s).reports =
            s.reports ++ [(a, a == q.correct_answer, q.id)] ∧
          (quizStep qs (QuizEvent.select a) s).hasSubmitted = true ∧
          quizStep qs (QuizEvent.select a) (quizStep qs (QuizEvent.select a) s) =
            quizStep qs (QuizEvent.select a) s)) := by
  have hq' : qs[s.currentQuizIndex]? = some q := by
    rw [← List.get?_eq_getElem?]
    exact hq
  constructor
  · intro h
    simp [quizStep, h]
  · intro h
    have h1 : (quizStep qs (QuizEvent.select a) s).hasSubmitted = true := by
      simp [quizStep, h, hq']
    refine ⟨?_, h1, ?_⟩
    · simp [quizStep, h, hq']
    · generalize hstep : quizStep qs (QuizEvent.select a) s = s2 at h1 ⊢
      simp [quizStep, h1]

/-- A one-question bank for the submission witness. -/
def quizW : QuizQ :=
  { id := 7, question_text := [], correct_answer := ['y'],
    incorrect_answers := [['n']], explanation := [] }

theorem submit_idempotent_reports_once_witness :
    ([quizW].get? initQuizState.currentQuizIndex = some quizW) ∧
      ((initQuizState.hasSubmitted = true →
          quizStep [quizW] (QuizEvent.select ['y']) initQuizState = initQuizState) ∧
        (initQuizState.hasSubmitted = false →
          ((quizStep [quizW] (QuizEvent.select ['y']) initQuizState).reports =
              initQuizState.reports ++ [(['y'], ['y'] == quizW.correct_answer, quizW.id)] ∧
            (quizStep [quizW] (QuizEvent.select ['y']) initQuizState).hasSubmitted = true ∧
            quizStep [quizW] (QuizEvent.select ['y'])
                (quizStep [quizW] (QuizEvent.select ['y']) initQuizState) =
              quizStep [quizW] (QuizEvent.select ['y']) initQuizState))) :=
  ⟨by decide, submit_idempotent_reports_once [quizW] initQuizState quizW ['y'] (by decide)⟩

/-! ## Quiz view: deterministic answer shuffle

Source: `shuffleArray` in `QuizView`.  `seededRandom` recomputes
`Math.sin(currentQuiz.id) * 10000` on every call and returns its fractional
part, so it yields the *same* value `r ∈ [0,1)` at every loop iteration; the
Fisher-Yates loop then swaps index `i` with `j = Math.floor(r * (i + 1))` for
`i = n-1 … 1`.  `Math.sin` is IEEE floating point; the verified properties
do not depend on its values, so it is modelled as an arbitrary function
`sin : Int → ℚ` supplied to the definitions (the quiz ids are integers). -/

/-- `[newArray[i], newArray[j]] = [newArray[j], newArray[i]]` — swap two
positions of a list (identity when either index is out of range; the source
only ever swaps in-range indices because `r ∈ [0,1)`). -/
def listSwap {α : Type} (l : List α) (i j : Nat) : List α :=
  match l.get? i, l.get? j with
  | some a, some b => (l.set i b).set j a
  | _, _ => l

/-- The Fisher-Yates loop of `shuffleArray`, counting `i` down to 1.
`fyLoop r l i` performs the swaps for indices `i, i-1, …, 1`. -/
def fyLoop {α : Type} (r : ℚ) : List α → Nat → List α
  | l, 0 => l
  | l, i + 1 => fyLoop r (listSwap l (i + 1) (⌊r * ((i : ℚ) + 2)⌋.toNat)) i

/-- `shuffleArray` seeded with the constant value `r` that `seededRandom`
returns for the whole call. -/
def shuffleArray {α : Type} (r : ℚ) (l : List α) : List α :=
  fyLoop r l (l.length - 1)

/-- `const x = Math.sin(currentQuiz.id) * 10000; return x - Math.floor(x);` -/
def seededRandom (sinId : ℚ) : ℚ :=
  let x := sinId * 10000
  x - (⌊x⌋ : ℚ)

/-- `allAnswers = [correct_answer, ...incorrect_answers]` shuffled with the
seed derived from the question id; `sin` models `Math.sin`. -/
def shuffleAnswers (sin : Int → ℚ) (q : QuizQ) : List (List Char) :=
  shuffleArray (seededRandom (sin q.id)) (q.correct_answer :: q.incorrect_answers)

theorem head_swap_perm {α : Type} (x y : α) (xs : List α) (k : Nat)
    (hk : xs.get? k = some y) : List.Perm (y :: xs.set k x) (x :: xs) := by
  induction xs generalizing k with
  | nil => cases hk
  | cons z t ih =>
    cases k with
    | zero =>
      cases hk
      exact List.Perm.swap x y t
    | succ k =>
      have hk' : t.get? k = some y := hk
      have p1 : List.Perm (y :: z :: t.set k x) (z :: y :: t.set k x) :=
        List.Perm.swap z y (t.set k x)
      have p2 : List.Perm (z :: y :: t.set k x) (z :: x :: t) :=
        List.Perm.cons z (ih k hk')
      have p3 : List.Perm (z :: x :: t) (x :: z :: t) := List.Perm.swap x z t
      exact p1.trans (p2.trans p3)

theorem set_set_perm {α : Type} (l : List α) (i j : Nat) (a b : α)
    (hi : l.get? i = some a) (hj : l.get? j = some b) :
    List.Perm ((l.set i b).set j a) l := by
  induction l generalizing i j with
  | nil => cases hi
  | cons x xs ih =>
    cases i with
    | zero =>
      cases hi
      cases j with
      | zero =>
        cases hj
        exact List.Perm.refl _
      | succ k =>
        have hj' : xs.get? k = some b := hj
        exact head_swap_perm a b xs k hj'
    | succ m =>
      cases j with
      | zero =>
        cases hj
        have hi' : xs.get? m = some a := hi
        exact head_swap_perm b a xs m hi'
      | succ k =>
        have hi' : xs.get? m = some a := hi
        have hj' : xs.get? k = some b := hj
        exact List.Perm.cons x (ih m k hi' hj')

theorem listSwap_perm {α : Type} (l : List α) (i j : Nat) :
    List.Perm (listSwap l i j) l := by
  rw [listSwap]
  cases hi : l.get? i with
  | none => exact List.Perm.refl _
  | some a =>
    cases hj : l.get? j with
    | none =>
      simp only [hi]
      exact List.Perm.refl _
    | some b =>
      simp only [hi, hj]
      exact set_set_perm l i j a b hi hj

theorem fyLoop_perm {α : Type} (r : ℚ) (n : Nat) :
    ∀ l : List α, List.Perm (fyLoop r l n) l := by
  induction n with
  | zero => intro l; exact List.Perm.refl _
  | succ i ih =>
    intro l
    exact List.Perm.trans (ih _) (listSwap_perm l (i + 1) _)

theorem shuffleArray_perm {α : Type} (r : ℚ) (l : List α) :
    List.Perm (shuffleArray r l) l :=
  fyLoop_perm r (l.length - 1) l

/-- C9: the answer shuffle is deterministic in the question identifier — two
renders of questions with the same id and the same answer lists produce the
same ordering, for every model `sin` of `Math.sin` — and the displayed list
is a permutation of `correct_answer :: incorrect_answers`. -/
theorem shuffle_deterministic_in_id (sin : Int → ℚ) (q r : QuizQ)
    (hid : q.id = r.id) (hca : q.correct_answer = r.correct_answer)
    (hia : q.incorrect_answers = r.incorrect_answers) :
    shuffleAnswers sin q = shuffleAnswers sin r ∧
      List.Perm (shuffleAnswers sin q) (q.correct_answer :: q.incorrect_answers) := by
  constructor
  · rw [shuffleAnswers, shuffleAnswers, hid, hca, hia]
  · exact shuffleArray_perm _ _

theorem shuffle_deterministic_in_id_witness :
    quizW.id = quizW.id ∧ quizW.correct_answer = quizW.correct_answer ∧
      quizW.incorrect_answers = quizW.incorrect_answers ∧
      (shuffleAnswers (fun _ => 0) quizW = shuffleAnswers (fun _ => 0) quizW ∧
        List.Perm (shuffleAnswers (fun _ => 0) quizW)
          (quizW.correct_answer :: quizW.incorrect_answers)) :=
  ⟨rfl, rfl, rfl, shuffle_deterministic_in_id (fun _ => 0) quizW quizW rfl rfl rfl⟩

/-! ## Audio transport: playback-status callback

Source: `statusUpdateCallback` inside `AudioPlayer`.  The callback is invoked
on every transport tick with an `AVPlaybackStatus`; its only effects are
`setIsPlaying` state updates and calls to the `onFinish` prop.  It issues no
transport command (no `pauseAsync` / `playAsync` / `setPositionAsync`), which
the model records in `transportCalls`.  Times: `endPosition` is in seconds,
`positionMillis` in milliseconds; the comparison is
`positionMillis >= endPosition * 1000`.  The source times are JS numbers;
they are modelled as `Int` here because the verified properties depend only
on order comparisons, never on fractional values. -/

structure AVStatus where
  isLoaded : Bool
  isPlaying : Bool
  positionMillis : Int
  didJustFinish : Bool
  isLooping : Bool
deriving DecidableEq, Repr

structure TickEffects where
  setPlayingCalls : List Bool
  finishCalls : Nat
  transportCalls : Nat
deriving DecidableEq, Repr

/-- One invocation of `statusUpdateCallback`, given the component's current
`isPlaying` state and the `endPosition` prop. -/
def statusUpdateCallback (isPlayingState : Bool) (endPosition : Option Int)
    (st : AVStatus) : TickEffects :=
  if !st.isLoaded then
    { setPlayingCalls := if isPlayingState then [false] else [],
      finishCalls := 0, transportCalls := 0 }
  else
    let sp0 : List Bool :=
      if st.isPlaying != isPlayingState then [st.isPlaying] else []
    let f0 : Nat :=
      if st.isPlaying &&
          endPosition.any (fun e => decide (e * 1000 ≤ st.positionMillis)) then
        1
      else 0
    if st.didJustFinish && !st.isLooping then
      { setPlayingCalls := sp0 ++ [false],
        finishCalls := f0 + (if endPosition.isNone then 1 else 0),
        transportCalls := 0 }
    else
      { setPlayingCalls := sp0, finishCalls := f0, transportCalls := 0 }

/-- Total number of `onFinish` calls over a sequence of transport ticks,
threading the `isPlaying` state the way React does (the last `setIsPlaying`
argument of a tick is the state seen by the next tick). -/
def runTicks (endPosition : Option Int) : Bool → List AVStatus → Nat
  | _, [] => 0
  | ips, st :: rest =>
    let e := statusUpdateCallback ips endPosition st
    e.finishCalls + runTicks endPosition (e.setPlayingCalls.getLastD ips) rest

/-- A tick at/past the 10-second boundary while playing. -/
def tickAtBoundary : AVStatus :=
  { isLoaded := true, isPlaying := true, positionMillis := 10000,
    didJustFinish := false, isLooping := false }

/-- C5 counterexample: the boundary-reached signal is **not** one-shot.  With
`endPosition = 10` s, two consecutive ticks at position 10000 ms while still
playing (nothing pauses the sound — the callback itself never does) make the
callback call `onFinish` twice, refuting "fires exactly once when the
position first reaches or exceeds the end boundary". -/
theorem boundary_signal_not_one_shot_cex :
    runTicks (some 10) false [tickAtBoundary, tickAtBoundary] = 2 ∧
      runTicks (some 10) false [tickAtBoundary, tickAtBoundary] ≠ 1 := by
  constructor
  · decide
  · decide

/-- C5 (amended): on **every** tick (not just the first) on which the sound
is loaded and playing and the position has reached or passed the non-null end
boundary, the callback fires the boundary-reached signal; it also fires on a
natural end of the resource (`didJustFinish`, not looping) when no end
boundary is set; and it never issues a transport command — in particular
firing the signal does not itself pause playback. -/
theorem boundary_signal_fires_every_tick (ips : Bool) (st : AVStatus) (e : Int)
    (hl : st.isLoaded = true) :
    (st.isPlaying = true → e * 1000 ≤ st.positionMillis →
        1 ≤ (statusUpdateCallback ips (some e) st).finishCalls) ∧
      (st.didJustFinish = true → st.isLooping = false →
        1 ≤ (statusUpdateCallback ips none st).finishCalls) ∧
      (statusUpdateCallback ips (some e) st).transportCalls = 0 ∧
      (statusUpdateCallback ips none st).transportCalls = 0 := by
  refine ⟨?_, ?_, ?_, ?_⟩
  · intro hp hpos
    simp only [statusUpdateCallback, hl, Bool.not_true, Bool.false_eq_true,
      if_false, hp, Option.any_some, decide_eq_true_eq]
    split <;> simp [hpos]
  · intro hf hloop
    simp only [statusUpdateCallback, hl, Bool.not_true, Bool.false_eq_true,
      if_false, hf, hloop]
    simp
  · simp only [statusUpdateCallback, hl, Bool.not_true, Bool.false_eq_true,
      if_false]
    split <;> rfl
  · simp only [statusUpdateCallback, hl, Bool.not_true, Bool.false_eq_true,
      if_false]
    split <;> rfl

theorem boundary_signal_fires_every_tick_witness :
    tickAtBoundary.isLoaded = true ∧
      ((tickAtBoundary.isPlaying = true → (10 : Int) * 1000 ≤ tickAtBoundary.positionMillis →
          1 ≤ (statusUpdateCallback false (some 10) tickAtBoundary).finishCalls) ∧
        (tickAtBoundary.didJustFinish = true → tickAtBoundary.isLooping = false →
          1 ≤ (statusUpdateCallback false none tickAtBoundary).finishCalls) ∧
        (statusUpdateCallback false (some 10) tickAtBoundary).transportCalls = 0 ∧
        (statusUpdateCallback false none tickAtBoundary).transportCalls = 0) :=
  ⟨rfl, boundary_signal_fires_every_tick false tickAtBoundary 10 rfl⟩

/-! ## Audio transport: sound loading and the unmount guard

Source: the `loadSound` async function inside the `useEffect` of
`AudioPlayer` keyed on `[audioUrl, enabled, getSignedUrl]`.  The effect
closure sets `isMounted = false` in its cleanup, which runs both when the
component unmounts and when `audioUrl`/`enabled` change (a new effect run
supersedes the old one), so `mountedAtResume` below is false exactly when
the load completed after unmount **or** after the audio URL changed.  The
model records, in order of occurrence, the arguments of every `setSound`
call and every `unloadAsync` call the function makes. -/

structure LoadOutcome where
  setSoundCalls : List (Option Nat)
  unloadCalls : List Nat
  setLoadingCalls : List Bool
  setPlayingCalls : List Bool
deriving DecidableEq, Repr

/-- One run of `loadSound` to completion.

* `enabled` / `audioUrl`: the props; `!enabled || !audioUrl` takes the
  early-return branch that merely unloads any previous sound.
* `hasResolver` / `resolved`: whether a `getSignedUrl` prop exists and what
  it returned (`none` = resolution failure, which throws into the catch).
* `prevSound`: the `sound` state captured by the effect closure.
* `newSid`: the identity of the freshly constructed `Audio.Sound`.
* `loadOk`: whether `loadAsync` succeeded.
* `mountedAtResume`: the value of `isMounted` when the awaits resume. -/
def loadSound (enabled : Bool) (audioUrl : Option (List Char))
    (hasResolver : Bool) (resolved : Option (List Char))
    (prevSound : Option Nat) (newSid : Nat) (loadOk : Bool)
    (mountedAtResume : Bool) : LoadOutcome :=
  match audioUrl with
  | none =>
    { setSoundCalls := match prevSound with | some _ => [none] | none => [],
      unloadCalls := match prevSound with | some p => [p] | none => [],
      setLoadingCalls := [false],
      setPlayingCalls := match prevSound with | some _ => [false] | none => [] }
  | some url =>
    if !enabled then
      { setSoundCalls := match prevSound with | some _ => [none] | none => [],
        unloadCalls := match prevSound with | some p => [p] | none => [],
        setLoadingCalls := [false],
        setPlayingCalls := match prevSound with | some _ => [false] | none => [] }
    else
      let needsResolve := !(url.take 4 == ['h', 't', 't', 'p']) && hasResolver
      let resolutionOk := !needsResolve || resolved.isSome
      if resolutionOk && loadOk then
        if mountedAtResume then
          { setSoundCalls := [some newSid],
            unloadCalls :=
              match prevSound with
              | some p => if p != newSid then [p] else []
              | none => [],
            setLoadingCalls := [true, false],
            setPlayingCalls := [false] }
        else
          { setSoundCalls := [], unloadCalls := [newSid],
            setLoadingCalls := [true], setPlayingCalls := [] }
      else
        if mountedAtResume then
          { setSoundCalls := [none], unloadCalls := [newSid],
            setLoadingCalls := [true, false], setPlayingCalls := [false] }
        else
          { setSoundCalls := [], unloadCalls := [newSid],
            setLoadingCalls := [true], setPlayingCalls := [] }

/-- C7: if a load that actually started (audio enabled, URL present)
completes after the component unmounted or the audio URL changed
(`mountedAtResume = false`), the freshly loaded sound is unloaded and
`setSound` is never called — the stale result can neither attach to the
transport nor affect the currently displayed segment's audio.  This holds on
every path: successful load, failed resolution and failed `loadAsync`. -/
theorem stale_load_discarded (url : List Char) (hasResolver : Bool)
    (resolved : Option (List Char)) (prevSound : Option Nat) (newSid : Nat)
    (loadOk : Bool) :
    loadSound true (some url) hasResolver resolved prevSound newSid loadOk false =
      { setSoundCalls := [], unloadCalls := [newSid],
        setLoadingCalls := [true], setPlayingCalls := [] } := by
  simp only [loadSound, Bool.not_true, Bool.false_eq_true, if_false]
  split <;> rfl

/-! ## Content paginator: sentence splitting

Source: `createPageParts` and `findAudioTimingForText` in `ReadingView`.
Texts are `List Char`.  `isWsChar` models the whitespace class of the JS
regexes `\s`/`[\s\n]` and of `String.prototype.trim` (restricted to the four
ASCII whitespace characters; the exotic Unicode spaces JS also accepts do
not affect any claim). -/

def isTermChar (c : Char) : Bool :=
  c == '.' || c == '!' || c == '?'

def isWsChar (c : Char) : Bool :=
  c == ' ' || c == '\t' || c == '\n' || c == '\r'

/-- `text.split(/[.!?]+[\s\n]+/)`: scan left to right; a maximal run of
sentence terminators followed by at least one whitespace character is a
separator (the separator greedily consumes the whitespace run); a terminator
run *not* followed by whitespace stays inside the current fragment.  Like JS
`split`, empty fragments between adjacent separators and at either end are
produced.

State of the scan: `skipSep` is true while consuming the whitespace tail of
a separator; `acc` holds the current fragment (reversed); `run` holds a
pending maximal terminator run (reversed) that is not yet classified as
separator or fragment content. -/
def splitAux (skipSep : Bool) (acc run : List Char) : List Char → List (List Char)
  | [] => if skipSep then [[]] else [(run ++ acc).reverse]
  | c :: rest =>
    if skipSep then
      if isWsChar c then splitAux true [] [] rest
      else if isTermChar c then splitAux false [] [c] rest
      else splitAux false [c] [] rest
    else
      if isTermChar c then splitAux false acc (c :: run) rest
      else if isWsChar c && !run.isEmpty then acc.reverse :: splitAux true [] [] rest
      else splitAux false (c :: (run ++ acc)) [] rest

def splitSentences (text : List Char) : List (List Char) :=
  splitAux false [] [] text

/-- `.filter(sentence => sentence.trim().length > 0)` — keep the fragments
containing at least one non-whitespace character. -/
def sentenceFragments (text : List Char) : List (List Char) :=
  (splitSentences text).filter (fun f => f.any (fun c => !isWsChar c))

/-- `String.prototype.trim` on the ASCII whitespace model. -/
def trimWs (l : List Char) : List Char :=
  ((l.dropWhile isWsChar).reverse.dropWhile isWsChar).reverse

/-- JS `substring(a, b)` for `a ≤ b` (the only way the source calls it). -/
def jsSubstring (l : List Char) (a b : Nat) : List Char :=
  (l.drop a).take (b - a)

def firstOccurAux (needle : List Char) : List Char → Nat → Option Nat
  | [], pos => if needle.isPrefixOf ([] : List Char) then some pos else none
  | c :: t, pos =>
    if needle.isPrefixOf (c :: t) then some pos else firstOccurAux needle t (pos + 1)

/-- JS `hay.indexOf(needle, start)`; `none` models the `-1` result. -/
def jsIndexOfFrom (hay needle : List Char) (start : Nat) : Option Nat :=
  firstOccurAux needle (hay.drop start) start

/-- The terminator-reattachment loop of `createPageParts`: for each fragment,
locate it in the original text from the running index, read the (at most
two) characters that follow, trim them, and append them when they contain a
sentence terminator — otherwise append a synthesized `'.'`.  The `none`
branch of `jsIndexOfFrom` mirrors the JS arithmetic on an `indexOf` result
of `-1` (it cannot occur for fragments produced by `splitSentences`, but the
model is total like the source). -/
def attachOne (text s : List Char) (ci : Nat) : List Char × Nat :=
  let endIdx :=
    match jsIndexOfFrom text s ci with
    | some idx => idx + s.length
    | none => s.length - 1
  let term := trimWs (jsSubstring text endIdx (endIdx + 2))
  (s ++ (if term.any isTermChar then term else ['.']), endIdx)

def attachTerms (text : List Char) : List (List Char) → Nat → List (List Char)
  | [], _ => []
  | s :: rest, ci =>
    if s.any (fun c => !isWsChar c) then
      (attachOne text s ci).1 :: attachTerms text rest (attachOne text s ci).2
    else
      attachTerms text rest ci

/-- The `processedSentences` list of `createPageParts`. -/
def processedSentences (text : List Char) : List (List Char) :=
  attachTerms text (sentenceFragments text) 0

/-! ## Content paginator: alignment matching -/

/-- One span of `alignment_data.segments` (the per-word array inside each
span is never read by the embedded functions and is omitted).  The source
field `end` is a Lean keyword and is called `endT` here. -/
structure AlignSpan where
  start : ℚ
  endT : ℚ
  text : List Char
deriving DecidableEq, Repr

structure AlignmentData where
  segments : List AlignSpan
  detected_language : List Char
deriving DecidableEq, Repr

/-- JS `hay.includes(needle)`. -/
def containsSub (needle hay : List Char) : Bool :=
  match hay with
  | [] => needle.isPrefixOf ([] : List Char)
  | _ :: rest => needle.isPrefixOf hay || containsSub needle rest

def collapseWsAux (prevWs : Bool) : List Char → List Char
  | [] => []
  | c :: rest =>
    if isWsChar c then
      if prevWs then collapseWsAux true rest
      else ' ' :: collapseWsAux true rest
    else c :: collapseWsAux false rest

/-- `text.replace(/\s+/g, ' ')` — every maximal whitespace run becomes one
space. -/
def collapseWs (l : List Char) : List Char :=
  collapseWsAux false l

/-- `text.replace(/\s+/g, ' ').trim().toLowerCase()`. -/
def normalizeText (l : List Char) : List Char :=
  (trimWs (collapseWs l)).map Char.toLower

def splitOnSpaceAux (acc : List Char) : List Char → List (List Char)
  | [] => [acc.reverse]
  | c :: rest =>
    if c == ' ' then acc.reverse :: splitOnSpaceAux [] rest
    else splitOnSpaceAux (c :: acc) rest

/-- JS `str.split(' ')` (split on the single space character, keeping
empty pieces). -/
def splitOnSpace (l : List Char) : List (List Char) :=
  splitOnSpaceAux [] l

/-- `normalizedText.split(' ').slice(0, 5).join(' ')`. -/
def firstWordsOf (text : List Char) : List Char :=
  List.intercalate [' '] ((splitOnSpace (normalizeText text)).take 5)

/-- `normalizedText.split(' ').slice(-5).join(' ')`. -/
def lastWordsOf (text : List Char) : List Char :=
  let ws := splitOnSpace (normalizeText text)
  List.intercalate [' '] (ws.drop (ws.length - 5))

/-- The span scan of `findAudioTimingForText`: walk the spans in order; the
first span whose lowercased text contains the first-five-words string sets
`start` (only while `start` is still null); any span containing the
last-five-words string sets `end`, and the loop breaks as soon as both are
set. -/
def scanSpans (fw lw : List Char) :
    List AlignSpan → Option ℚ → Option ℚ → Option ℚ × Option ℚ
  | [], s, e => (s, e)
  | sp :: rest, s, e =>
    let st := sp.text.map Char.toLower
    let s1 := if containsSub fw st && s.isNone then some sp.start else s
    if containsSub lw st then
      if s1.isSome then (s1, some sp.endT)
      else scanSpans fw lw rest s1 (some sp.endT)
    else
      scanSpans fw lw rest s1 e

/-- The boundary scan applied to a page text, starting from `(null, null)`. -/
def boundaryScan (text : List Char) (spans : List AlignSpan) :
    Option ℚ × Option ℚ :=
  scanSpans (firstWordsOf text) (lastWordsOf text) spans none none

/-- `findAudioTimingForText(text, alignmentData)`.  Returns `none` when the
alignment data is absent or has no spans; returns the scanned `(start, end)`
when the scan set both; otherwise falls back to the first span's start and
the last span's end.  (The trailing `return null` of the source is
unreachable because the fallback branch is guarded by the same
`segments.length > 0` that was already established.) -/
def findAudioTimingForText (text : List Char) (a : Option AlignmentData) :
    Option (ℚ × ℚ) :=
  match a with
  | none => none
  | some ad =>
    match ad.segments with
    | [] => none
    | hd :: tl =>
      match scanSpans (firstWordsOf text) (lastWordsOf text) (hd :: tl) none none with
      | (some s, some e) => some (s, e)
      | _ => some (hd.start, (tl.getLastD hd).endT)

/-! ## Content paginator: page assembly -/

/-- A SubPage (`PagePart` in the source). -/
structure PagePart where
  text : List Char
  audioStart : Option ℚ
  audioEnd : Option ℚ
deriving DecidableEq, Repr

/-- Helper of `chunkList`: `cur` is the chunk under construction (reversed)
and `room` how many more elements it can take. -/
def chunkAux {α : Type} (k : Nat) : List α → Nat → List α → List (List α)
  | cur, _, [] => [cur.reverse]
  | cur, 0, x :: xs => cur.reverse :: chunkAux k [x] (k - 1) xs
  | cur, room + 1, x :: xs => chunkAux k (x :: cur) room xs

/-- The `for (let i = 0; i < n; i += SENTENCES_PER_PAGE)` grouping:
consecutive chunks of `k` elements (the last chunk may be shorter).  For the
`k ≥ 1` values used by the source (3 and 1) this is exactly the JS loop. -/
def chunkList {α : Type} (k : Nat) : List α → List (List α)
  | [] => []
  | x :: xs => chunkAux k [x] (k - 1) xs

/-- The `'\n\n'` separator the source joins grouped sentences with. -/
def nnSep : List Char := ['\n', '\n']

/-- Build one page from a group of sentences: join with `'\n\n'`, derive the
audio window from the alignment matcher (`timing?.start ?? null`). -/
def pageOfGroup (a : Option AlignmentData) (g : List (List Char)) : PagePart :=
  let pageContent := List.intercalate nnSep g
  let timing := findAudioTimingForText pageContent a
  { text := pageContent,
    audioStart := timing.map Prod.fst,
    audioEnd := timing.map Prod.snd }

/-- `if (pageParts.length === 0)` push a single fallback page holding the
whole text with null timing. -/
def fallbackIfEmpty (text : List Char) (parts : List PagePart) : List PagePart :=
  if parts.isEmpty then [{ text := text, audioStart := none, audioEnd := none }]
  else parts

/-- `createPageParts(text, alignmentData)` parameterised by
`SENTENCES_PER_PAGE`.  `if (!text)` returns a single empty page; otherwise
group the processed sentences into pages and fall back to the whole text
when no page was produced. -/
def createPagePartsCore (spp : Nat) (text : List Char)
    (a : Option AlignmentData) : List PagePart :=
  if text.isEmpty then [{ text := [], audioStart := none, audioEnd := none }]
  else
    fallbackIfEmpty text ((chunkList spp (processedSentences text)).map (pageOfGroup a))

/-- The reading-view variant with `SENTENCES_PER_PAGE = 3`. -/
def createPageParts (text : List Char) (a : Option AlignmentData) : List PagePart :=
  createPagePartsCore 3 text a

/-- The superseding snapshot's variant with `SENTENCES_PER_PAGE = 1`. -/
def createPageParts1 (text : List Char) (a : Option AlignmentData) : List PagePart :=
  createPagePartsCore 1 text a

/-- Totality of `createPagePartsCore` over both branches, for any page size:
a non-empty result on every input, the empty-text page for `""`, and the
whole-text fallback page when sentence splitting produced nothing. -/
theorem createPagePartsCore_total (spp : Nat) (text : List Char)
    (a : Option AlignmentData) :
    createPagePartsCore spp ([] : List Char) a =
        [{ text := [], audioStart := none, audioEnd := none }] ∧
      1 ≤ (createPagePartsCore spp text a).length ∧
      (text ≠ [] → processedSentences text = [] →
        createPagePartsCore spp text a =
          [{ text := text, audioStart := none, audioEnd := none }]) := by
  have hfb : ∀ parts : List PagePart, 1 ≤ (fallbackIfEmpty text parts).length := by
    intro parts
    rw [fallbackIfEmpty]
    split
    · simp
    · rename_i hne
      cases parts with
      | nil => exact absurd rfl hne
      | cons p ps => simp
  refine ⟨rfl, ?_, ?_⟩
  · rw [createPagePartsCore]
    split
    · simp
    · exact hfb _
  · intro hne hzero
    rw [createPagePartsCore]
    have h1 : text.isEmpty = false := by
      cases text with
      | nil => exact absurd rfl hne
      | cons c t => rfl
    rw [h1]
    simp only [Bool.false_eq_true, if_false, hzero]
    rfl

/-- C4: the pagination function is total — every input yields at least one
SubPage; the empty string yields exactly one SubPage with empty text and
null timing; a non-empty text on which sentence splitting yields zero
sentences yields exactly one SubPage with the whole text and null timing.
Both source variants (3 resp. 1 sentences per page) are covered. -/
theorem pagination_total (text : List Char) (a : Option AlignmentData) :
    createPageParts ([] : List Char) a =
        [{ text := [], audioStart := none, audioEnd := none }] ∧
      createPageParts1 ([] : List Char) a =
        [{ text := [], audioStart := none, audioEnd := none }] ∧
      1 ≤ (createPageParts text a).length ∧
      1 ≤ (createPageParts1 text a).length ∧
      (text ≠ [] → processedSentences text = [] →
        (createPageParts text a =
            [{ text := text, audioStart := none, audioEnd := none }] ∧
          createPageParts1 text a =
            [{ text := text, audioStart := none, audioEnd := none }])) := by
  obtain ⟨e3, l3, f3⟩ := createPagePartsCore_total 3 text a
  obtain ⟨e1, l1, f1⟩ := createPagePartsCore_total 1 text a
  exact ⟨e3, e1, l3, l1, fun hne hzero => ⟨f3 hne hzero, f1 hne hzero⟩⟩

theorem pagination_total_witness :
    ([' ', ' '] : List Char) ≠ [] ∧
      processedSentences [' ', ' '] = [] ∧
      (createPageParts ([] : List Char) none =
          [{ text := [], audioStart := none, audioEnd := none }] ∧
        createPageParts1 ([] : List Char) none =
          [{ text := [], audioStart := none, audioEnd := none }] ∧
        1 ≤ (createPageParts [' ', ' '] none).length ∧
        1 ≤ (createPageParts1 [' ', ' '] none).length ∧
        (([' ', ' '] : List Char) ≠ [] → processedSentences [' ', ' '] = [] →
          (createPageParts [' ', ' '] none =
              [{ text := [' ', ' '], audioStart := none, audioEnd := none }] ∧
            createPageParts1 [' ', ' '] none =
              [{ text := [' ', ' '], audioStart := none, audioEnd := none }]))) :=
  ⟨by decide, by decide, pagination_total [' ', ' '] none⟩

/-- C3: the alignment matcher returns null exactly on absent alignment data
or an empty span list; with at least one span present it never returns null
(whether or not the word scan succeeds), and when the first-5/last-5-words
scan fails to set both boundaries it returns the first span's start and the
last span's end. -/
theorem alignment_match_fallback (text dl : List Char) (ad : AlignmentData)
    (hd : AlignSpan) (tl : List AlignSpan) (hseg : ad.segments = hd :: tl) :
    findAudioTimingForText text none = none ∧
      findAudioTimingForText text
          (some { segments := [], detected_language := dl }) = none ∧
      findAudioTimingForText text (some ad) ≠ none ∧
      (((boundaryScan text (hd :: tl)).1 = none ∨
          (boundaryScan text (hd :: tl)).2 = none) →
        findAudioTimingForText text (some ad) =
          some (hd.start, (tl.getLastD hd).endT)) := by
  have hb : boundaryScan text (hd :: tl) =
      scanSpans (firstWordsOf text) (lastWordsOf text) (hd :: tl) none none := rfl
  refine ⟨rfl, rfl, ?_, ?_⟩
  · rcases hscan : scanSpans (firstWordsOf text) (lastWordsOf text)
        (hd :: tl) none none with ⟨s, e⟩
    simp only [findAudioTimingForText, hseg]
    rw [hscan]
    cases s with
    | none =>
      cases e <;> intro h <;> cases h
    | some sv =>
      cases e <;> intro h <;> cases h
  · intro hmiss
    rcases hscan : scanSpans (firstWordsOf text) (lastWordsOf text)
        (hd :: tl) none none with ⟨s, e⟩
    rw [hb, hscan] at hmiss
    simp only [findAudioTimingForText, hseg]
    rw [hscan]
    cases s with
    | none => cases e <;> rfl
    | some sv =>
      cases e with
      | none => rfl
      | some ev => simp at hmiss

/-- A concrete alignment span whose text matches neither word boundary of
the page text, forcing the fallback. -/
def spanW : AlignSpan :=
  { start := 3, endT := 9, text := ['o', 't', 'h', 'e', 'r'] }

theorem alignment_match_fallback_witness :
    ({ segments := [spanW], detected_language := [] } : AlignmentData).segments =
        spanW :: [] ∧
      (findAudioTimingForText ['h', 'i'] none = none ∧
        findAudioTimingForText ['h', 'i']
            (some { segments := [], detected_language := [] }) = none ∧
        findAudioTimingForText ['h', 'i']
            (some { segments := [spanW], detected_language := [] }) ≠ none ∧
        (((boundaryScan ['h', 'i'] (spanW :: [])).1 = none ∨
            (boundaryScan ['h', 'i'] (spanW :: [])).2 = none) →
          findAudioTimingForText ['h', 'i']
              (some { segments := [spanW], detected_language := [] }) =
            some (spanW.start, (([] : List AlignSpan).getLastD spanW).endT))) :=
  ⟨rfl,
    alignment_match_fallback ['h', 'i'] []
      { segments := [spanW], detected_language := [] } spanW [] rfl⟩

/-! ## C2: what the pagination preserves

`sentencesExtendFragments` is the per-sentence shape of the reattachment
loop's output: each processed sentence is the corresponding kept fragment
extended by a terminator suffix that is either the synthesized `'.'` or a
non-empty whitespace-free string of at most two characters containing a
sentence mark (the trimmed `substring(end, end + 2)` of the source). -/

def termSuffixOk (t : List Char) : Bool :=
  t == ['.'] ||
    (decide (1 ≤ t.length) && decide (t.length ≤ 2) &&
      t.any isTermChar && !(t.any isWsChar))

def sentencesExtendFragments : List (List Char) → List (List Char) → Bool
  | [], [] => true
  | s :: ss, f :: fs =>
    f.isPrefixOf s && termSuffixOk (s.drop f.length) &&
      sentencesExtendFragments ss fs
  | _, _ => false

theorem trimWs_small (l : List Char) (h : l.length ≤ 2) :
    (trimWs l).length ≤ 2 ∧ (trimWs l).any isWsChar = false := by
  match l with
  | [] => exact ⟨by simp [trimWs], by simp [trimWs]⟩
  | [a] =>
    by_cases ha : isWsChar a = true
    · simp [trimWs, List.dropWhile, ha]
    · have ha' : isWsChar a = false := by
        revert ha; cases isWsChar a <;> simp
      simp [trimWs, List.dropWhile, ha']
  | [a, b] =>
    by_cases ha : isWsChar a = true <;> by_cases hb : isWsChar b = true
    · simp [trimWs, List.dropWhile, ha, hb]
    · have hb' : isWsChar b = false := by
        revert hb; cases isWsChar b <;> simp
      simp [trimWs, List.dropWhile, ha, hb']
    · have ha' : isWsChar a = false := by
        revert ha; cases isWsChar a <;> simp
      simp [trimWs, List.dropWhile, ha', hb]
    · have ha' : isWsChar a = false := by
        revert ha; cases isWsChar a <;> simp
      have hb' : isWsChar b = false := by
        revert hb; cases isWsChar b <;> simp
      simp [trimWs, List.dropWhile, ha', hb']
  | a :: b :: c :: t => simp at h

theorem termSuffixOk_of_trim (x : List Char) (hx : x.length ≤ 2)
    (ht : (trimWs x).any isTermChar = true) :
    termSuffixOk (trimWs x) = true := by
  obtain ⟨hlen, hws⟩ := trimWs_small x hx
  have hne : 1 ≤ (trimWs x).length := by
    cases hl : trimWs x with
    | nil => rw [hl] at ht; cases ht
    | cons c cs => simp
  rw [termSuffixOk]
  refine Bool.or_eq_true_iff.mpr (Or.inr ?_)
  simp [hne, hlen, ht, hws]

theorem isPrefixOf_append_self (s t : List Char) : s.isPrefixOf (s ++ t) = true := by
  induction s with
  | nil => simp [List.isPrefixOf]
  | cons c cs ih => simp [List.isPrefixOf, ih]

theorem attachOne_spec (text s : List Char) (ci : Nat) :
    s.isPrefixOf (attachOne text s ci).1 = true ∧
      termSuffixOk ((attachOne text s ci).1.drop s.length) = true := by
  rw [attachOne]
  constructor
  · exact isPrefixOf_append_self s _
  · rw [List.drop_left]
    split
    · rename_i hterm
      apply termSuffixOk_of_trim _ ?_ hterm
      rw [jsSubstring]
      have hgen : ∀ eI : Nat, ((text.drop eI).take (eI + 2 - eI)).length ≤ 2 := by
        intro eI
        have h2 : eI + 2 - eI = 2 := by omega
        rw [h2]
        exact List.length_take_le _ _
      exact hgen _
    · rfl

theorem attachTerms_spec (text : List Char) (ss : List (List Char)) :
    ∀ ci : Nat, (∀ s ∈ ss, s.any (fun c => !isWsChar c) = true) →
      sentencesExtendFragments (attachTerms text ss ci) ss = true := by
  induction ss with
  | nil =>
    intro ci _
    rfl
  | cons s rest ih =>
    intro ci hss
    have hs : s.any (fun c => !isWsChar c) = true := hss s (by simp)
    rw [attachTerms, if_pos hs, sentencesExtendFragments]
    obtain ⟨hpre, hsuf⟩ := attachOne_spec text s ci
    rw [hpre, hsuf, ih _ (fun x hx => hss x (by simp [hx]))]
    rfl

/-- The chunks of `chunkAux` concatenate back to the pending chunk followed
by the remaining input. -/
theorem chunkAux_join {α : Type} (k : Nat) (l : List α) :
    ∀ (cur : List α) (room : Nat),
      (chunkAux k cur room l).flatten = cur.reverse ++ l := by
  induction l with
  | nil =>
    intro cur room
    rw [chunkAux]
    simp
  | cons x xs ih =>
    intro cur room
    cases room with
    | zero =>
      rw [chunkAux]
      simp [List.flatten_cons, ih]
    | succ r =>
      rw [chunkAux, ih]
      simp

/-- Concatenating the chunks restores the list: no element is lost or
duplicated by page grouping. -/
theorem chunkList_join {α : Type} (k : Nat) (l : List α) :
    (chunkList k l).flatten = l := by
  cases l with
  | nil => rfl
  | cons x xs =>
    rw [chunkList, chunkAux_join]
    rfl

theorem chunkAux_ne_nil {α : Type} (k : Nat) (l : List α) :
    ∀ (cur : List α) (room : Nat), chunkAux k cur room l ≠ [] := by
  induction l with
  | nil =>
    intro cur room h
    rw [chunkAux] at h
    cases h
  | cons x xs ih =>
    intro cur room h
    cases room with
    | zero =>
      rw [chunkAux] at h
      cases h
    | succ r =>
      rw [chunkAux] at h
      exact ih _ _ h

theorem chunkList_ne_nil {α : Type} (k : Nat) (l : List α) (h : l ≠ []) :
    chunkList k l ≠ [] := by
  cases l with
  | nil => exact absurd rfl h
  | cons x xs =>
    rw [chunkList]
    exact chunkAux_ne_nil k xs [x] (k - 1)

/-- When at least one sentence was produced, the pages are exactly the
sentence chunks joined with `'\n\n'`. -/
theorem createPagePartsCore_pages (spp : Nat) (text : List Char)
    (a : Option AlignmentData) (hne : text ≠ [])
    (hps : processedSentences text ≠ []) :
    (createPagePartsCore spp text a).map PagePart.text =
      (chunkList spp (processedSentences text)).map (List.intercalate nnSep) := by
  rw [createPagePartsCore]
  have h1 : text.isEmpty = false := by
    cases text with
    | nil => exact absurd rfl hne
    | cons c t => rfl
  rw [h1]
  simp only [Bool.false_eq_true, if_false]
  rw [fallbackIfEmpty]
  have hch := chunkList_ne_nil spp _ hps
  have hmap : ((chunkList spp (processedSentences text)).map (pageOfGroup a)).isEmpty = false := by
    cases hc : chunkList spp (processedSentences text) with
    | nil => exact absurd hc hch
    | cons g gs => rfl
  rw [hmap]
  simp only [Bool.false_eq_true, if_false]
  rw [List.map_map]
  have hfun : PagePart.text ∘ pageOfGroup a = List.intercalate nnSep := by
    funext g
    rfl
  rw [hfun]

/-- C2 (amended): for every non-empty text, pagination yields at least one
SubPage; the SubPage texts are exactly the processed sentences grouped into
chunks (3 per page, resp. 1 in the superseding variant) joined with the
inserted `'\n\n'` separators, and concatenating the chunks restores the
sentence list — so every sentence appears exactly once, none duplicated,
none lost; each processed sentence is its kept split fragment extended by
either a synthesized `'.'` or a whitespace-free terminator string of one or
two characters containing a sentence mark (in the common case the original
terminator truncated to at most its first two characters — **not** always
the full original terminator, see the counterexample); and when sentence
splitting produced nothing, the single page holds the whole text. -/
theorem pagination_reconstructs_sentences (text : List Char)
    (a : Option AlignmentData) (hne : text ≠ []) :
    1 ≤ (createPageParts text a).length ∧
      sentencesExtendFragments (processedSentences text)
        (sentenceFragments text) = true ∧
      (processedSentences text ≠ [] →
        ((createPageParts text a).map PagePart.text =
            (chunkList 3 (processedSentences text)).map (List.intercalate nnSep) ∧
          (createPageParts1 text a).map PagePart.text =
            (chunkList 1 (processedSentences text)).map (List.intercalate nnSep) ∧
          (chunkList 3 (processedSentences text)).flatten = processedSentences text ∧
          (chunkList 1 (processedSentences text)).flatten = processedSentences text)) ∧
      (processedSentences text = [] →
        (createPageParts text a).map PagePart.text = [text]) := by
  refine ⟨(createPagePartsCore_total 3 text a).2.1, ?_, ?_, ?_⟩
  · rw [processedSentences]
    apply attachTerms_spec
    intro s hs
    rw [sentenceFragments] at hs
    have h2 := List.of_mem_filter hs
    simpa using h2
  · intro hps
    exact ⟨createPagePartsCore_pages 3 text a hne hps,
      createPagePartsCore_pages 1 text a hne hps,
      chunkList_join 3 _, chunkList_join 1 _⟩
  · intro hps
    rw [createPageParts, (createPagePartsCore_total 3 text a).2.2 hne hps]
    rfl

/-- The text of the pagination witness: `"One. Two. Three."`. -/
def pagTestText : List Char :=
  ['O', 'n', 'e', '.', ' ', 'T', 'w', 'o', '.', ' ', 'T', 'h', 'r', 'e', 'e', '.']

theorem pagination_reconstructs_sentences_witness :
    pagTestText ≠ [] ∧ processedSentences pagTestText ≠ [] ∧
      (1 ≤ (createPageParts pagTestText none).length ∧
        sentencesExtendFragments (processedSentences pagTestText)
          (sentenceFragments pagTestText) = true ∧
        (processedSentences pagTestText ≠ [] →
          ((createPageParts pagTestText none).map PagePart.text =
              (chunkList 3 (processedSentences pagTestText)).map
                (List.intercalate nnSep) ∧
            (createPageParts1 pagTestText none).map PagePart.text =
              (chunkList 1 (processedSentences pagTestText)).map
                (List.intercalate nnSep) ∧
            (chunkList 3 (processedSentences pagTestText)).flatten =
              processedSentences pagTestText ∧
            (chunkList 1 (processedSentences pagTestText)).flatten =
              processedSentences pagTestText)) ∧
        (processedSentences pagTestText = [] →
          (createPageParts pagTestText none).map PagePart.text = [pagTestText])) :=
  ⟨by decide, by decide, pagination_reconstructs_sentences pagTestText none (by decide)⟩

/-- The counterexample text `"A!!! B"`, whose first sentence's terminator is
the three-character run `"!!!"`. -/
def cexText : List Char := ['A', '!', '!', '!', ' ', 'B']

/-- C2 counterexample: on `"A!!! B"` the kept fragments are `"A"` and `"B"`
and the terminator run following `"A"` in the text is `"!!!"`, but the
processed sentence is `"A!!"` — neither the fragment with its original
terminator reattached (`"A!!!"`) nor the fragment with a synthesized `'.'`
(`"A."`).  The produced SubPage text `"A!!\n\nB."` therefore does not carry
the original terminator, refuting the claim as stated. -/
theorem original_terminator_not_reattached_cex :
    sentenceFragments cexText = [['A'], ['B']] ∧
      (cexText.drop 1).takeWhile isTermChar = ['!', '!', '!'] ∧
      processedSentences cexText = [['A', '!', '!'], ['B', '.']] ∧
      (['A', '!', '!'] : List Char) ≠ ['A'] ++ ['!', '!', '!'] ∧
      (['A', '!', '!'] : List Char) ≠ ['A'] ++ ['.'] ∧
      (createPageParts cexText none).map PagePart.text =
        [['A', '!', '!', '\n', '\n', 'B', '.']] := by
  refine ⟨by decide, by decide, by decide, by decide, by decide, by decide⟩
